import Mathlib

/-!
Verification development for the BMS selection tool
(`src/selector.py` and `src/app.py`).

The Python sources are shallowly embedded here:

* pandas rows become Lean structures; float costs become `ℚ`;
  non-negative integer point counts become `ℕ`;
* the external mixed-integer solver invoked through `pulp` (CBC) is
  modelled as a `SolverOutcome` parameter together with the predicate
  `SolverCorrect` stating that the outcome is a true optimum /
  infeasibility certificate of exactly the program the Python code
  formulates;
* the unbounded `while` loop of `get_accessories_recursively` is
  embedded with explicit fuel (`expandLoop`); `none` means the loop has
  not exited within the given fuel;
* Python exceptions surface as `Except String`.
-/

/-- One purchasable catalog item: a row of `controllers.csv`, `servers.csv`
or `server_modules.csv` (columns `Name, PartNumber, Cost, DI, DO, AI, AO,
UI, UO, UIO`, missing numeric fields filled with 0 by `fillna(0)`). -/
structure ComponentSpec where
  Name : String
  PartNumber : String
  Cost : ℚ
  DI : ℕ
  DO : ℕ
  AI : ℕ
  AO : ℕ
  UI : ℕ
  UO : ℕ
  UIO : ℕ
deriving DecidableEq, Inhabited

/-- One row of `panels.csv`: the raw point demand of a single panel. -/
structure PanelReq where
  PanelName : String
  DI : ℕ
  DO : ℕ
  AI : ℕ
  AO : ℕ
deriving DecidableEq, Inhabited

/-- The point-count columns of a `ComponentSpec`, cast to `ℚ` for use in
the linear constraints. -/
def diQ (c : ComponentSpec) : ℚ := c.DI

def doQ (c : ComponentSpec) : ℚ := c.DO

def aiQ (c : ComponentSpec) : ℚ := c.AI

def aoQ (c : ComponentSpec) : ℚ := c.AO

def uiQ (c : ComponentSpec) : ℚ := c.UI

def uoQ (c : ComponentSpec) : ℚ := c.UO

def uioQ (c : ComponentSpec) : ℚ := c.UIO

/-- Required demand after the spare margin, `math.ceil(x * (1 + s/100))`
(`selector.py` lines 52-56, `app.py` lines 70-74); `s` is the spare
percentage (an `int` in the sources, default 20). -/
def reqPts (x s : ℕ) : ℕ := (⌈(x : ℚ) * (1 + (s : ℚ) / 100)⌉).toNat

/-- Sum of `f i` for `i < n`; models `pulp.lpSum` over the component list. -/
def sumOver (n : ℕ) (f : ℕ → ℚ) : ℚ := ((List.range n).map f).sum

/-- The component at position `i` of the candidate list (the sources key
variables by the unique `Name`; with `Nodup` names this is the same). -/
def cAt (comps : List ComponentSpec) (i : ℕ) : ComponentSpec := comps.getD i default

/-- The continuous allocation variables attached to one component:
`UIO_as_DI/AI/DO/AO`, `UI_as_Digital/Analog`, `UO_as_Digital/Analog`
(`selector.py` lines 28-37). -/
structure Alloc where
  uio_as_di : ℚ
  uio_as_ai : ℚ
  uio_as_do : ℚ
  uio_as_ao : ℚ
  ui_as_digital : ℚ
  ui_as_analog : ℚ
  uo_as_digital : ℚ
  uo_as_analog : ℚ
deriving DecidableEq, Inhabited

/-- All allocation variables of one component are non-negative
(`lowBound=0` on every `LpVariable`). -/
def AllocNN (a : Alloc) : Prop :=
  0 ≤ a.uio_as_di ∧ 0 ≤ a.uio_as_ai ∧ 0 ≤ a.uio_as_do ∧ 0 ≤ a.uio_as_ao ∧
    0 ≤ a.ui_as_digital ∧ 0 ≤ a.ui_as_analog ∧ 0 ≤ a.uo_as_digital ∧ 0 ≤ a.uo_as_analog

/-- The all-zero allocation. -/
def alloc0 : Alloc := ⟨0, 0, 0, 0, 0, 0, 0, 0⟩

/-- The feasible set of the mixed-integer program formulated by
`find_optimal_combination` (`selector.py` lines 41-76, identical in
`app.py` lines 58-94): per-component capacity constraints on the
universal points and the four coverage constraints against the
spare-adjusted demand.  `qty i` is the integer quantity of component `i`
(`lowBound=0, cat=Integer` makes it a natural number). -/
def Feasible (req : PanelReq) (comps : List ComponentSpec) (s : ℕ)
    (qty : ℕ → ℕ) (alloc : ℕ → Alloc) : Prop :=
  (∀ i, i < comps.length →
    AllocNN (alloc i) ∧
    (alloc i).uio_as_di + (alloc i).uio_as_ai + (alloc i).uio_as_do + (alloc i).uio_as_ao
        ≤ uioQ (cAt comps i) * (qty i : ℚ) ∧
    (alloc i).ui_as_digital + (alloc i).ui_as_analog ≤ uiQ (cAt comps i) * (qty i : ℚ) ∧
    (alloc i).uo_as_digital + (alloc i).uo_as_analog ≤ uoQ (cAt comps i) * (qty i : ℚ)) ∧
  ((reqPts req.DI s : ℚ) ≤
      sumOver comps.length (fun i => diQ (cAt comps i) * (qty i : ℚ)) +
        sumOver comps.length (fun i => (alloc i).ui_as_digital) +
        sumOver comps.length (fun i => (alloc i).uio_as_di)) ∧
  ((reqPts req.DO s : ℚ) ≤
      sumOver comps.length (fun i => doQ (cAt comps i) * (qty i : ℚ)) +
        sumOver comps.length (fun i => (alloc i).uo_as_digital) +
        sumOver comps.length (fun i => (alloc i).uio_as_do)) ∧
  ((reqPts req.AI s : ℚ) ≤
      sumOver comps.length (fun i => aiQ (cAt comps i) * (qty i : ℚ)) +
        sumOver comps.length (fun i => (alloc i).ui_as_analog) +
        sumOver comps.length (fun i => (alloc i).uio_as_ai)) ∧
  ((reqPts req.AO s : ℚ) ≤
      sumOver comps.length (fun i => aoQ (cAt comps i) * (qty i : ℚ)) +
        sumOver comps.length (fun i => (alloc i).uo_as_analog) +
        sumOver comps.length (fun i => (alloc i).uio_as_ao))

/-- The objective `Σ Cost[c] × qty[c]` (`selector.py` line 39). -/
def objCost (comps : List ComponentSpec) (qty : ℕ → ℕ) : ℚ :=
  sumOver comps.length (fun i => (cAt comps i).Cost * (qty i : ℚ))

/-- Outcome of the external CBC solve (`prob.solve(pulp.PULP_CBC_CMD …)`):
either optimal variable values, or no optimal solution. -/
inductive SolverOutcome where
  | optimal (qty : ℕ → ℕ) (alloc : ℕ → Alloc)
  | noSolution

/-- Contract of the external mixed-integer solver (spec §4.2): an
`optimal` outcome is feasible and of minimal objective value among all
feasible assignments, and `noSolution` is only reported when no feasible
assignment exists. -/
def SolverCorrect (req : PanelReq) (comps : List ComponentSpec) (s : ℕ) :
    SolverOutcome → Prop
  | .optimal qty alloc =>
      Feasible req comps s qty alloc ∧
        ∀ q a, Feasible req comps s q a → objCost comps qty ≤ objCost comps q
  | .noSolution => ∀ q a, ¬ Feasible req comps s q a

/-- The solution dictionary returned on an optimal solve: component names
with strictly positive quantity, in catalog order (`selector.py` lines
85-88). -/
def solutionMap (comps : List ComponentSpec) (qty : ℕ → ℕ) : List (String × ℕ) :=
  (List.range comps.length).filterMap (fun i =>
    if 0 < qty i then some ((cAt comps i).Name, qty i) else none)

/-- `find_optimal_combination` (`selector.py` lines 10-92, `app.py` lines
38-100), with the external solver call abstracted into the
`SolverOutcome` argument: on an optimal outcome it returns the objective
value and the positive-quantity map, otherwise `(None, None)`. -/
def find_optimal_combination (req : PanelReq) (comps : List ComponentSpec) (s : ℕ)
    (out : SolverOutcome) : Option ℚ × Option (List (String × ℕ)) :=
  match out with
  | .optimal qty _ => (some (objCost comps qty), some (solutionMap comps qty))
  | .noSolution => (none, none)

/-- C1: for every panel demand, spare percentage and candidate component
set, `find_optimal_combination` (run against a correct solver) returns a
total cost and quantity map minimizing `Σ Cost[c] × qty[c]` over all
non-negative integer quantities and non-negative continuous
universal-point allocations satisfying the per-component capacity
constraints and the four coverage constraints with demand
`reqX = ceil(x*(1+s/100))`; if no such assignment exists it returns
`(None, None)` rather than raising an error. -/
theorem C1_formulator_optimal (req : PanelReq) (comps : List ComponentSpec) (s : ℕ)
    (out : SolverOutcome) (hnodup : (comps.map ComponentSpec.Name).Nodup)
    (hsolver : SolverCorrect req comps s out) :
    ((∀ q a, ¬ Feasible req comps s q a) →
        find_optimal_combination req comps s out = (none, none)) ∧
    (∀ q a, Feasible req comps s q a →
        ∃ qo ao, Feasible req comps s qo ao ∧
          (∀ q2 a2, Feasible req comps s q2 a2 → objCost comps qo ≤ objCost comps q2) ∧
          find_optimal_combination req comps s out =
            (some (objCost comps qo), some (solutionMap comps qo))) := by
  cases out with
  | optimal qty alloc =>
      obtain ⟨hf, hmin⟩ := hsolver
      refine ⟨fun hno => absurd hf (hno qty alloc), fun q a _ => ⟨qty, alloc, hf, hmin, rfl⟩⟩
  | noSolution =>
      exact ⟨fun _ => rfl, fun q a hq => absurd hq (hsolver q a)⟩

/-- A zero-demand panel used as concrete input. -/
def panel0 : PanelReq := ⟨"P0", 0, 0, 0, 0⟩

/-- A concrete correct solver outcome for `panel0` over the empty catalog. -/
def out0 : SolverOutcome := .optimal (fun _ => 0) (fun _ => alloc0)

theorem C1_formulator_optimal_witness :
    ((([] : List ComponentSpec).map ComponentSpec.Name).Nodup ∧
        SolverCorrect panel0 [] 20 out0) ∧
      find_optimal_combination panel0 [] 20 out0 = (some 0, some []) := by
  have hreq : ∀ x : ℕ, reqPts 0 x = 0 := by
    intro x
    simp [reqPts]
  have hfeas : Feasible panel0 [] 20 (fun _ => 0) (fun _ => alloc0) := by
    refine ⟨fun i hi => absurd hi (by simp), ?_, ?_, ?_, ?_⟩ <;>
      simp [panel0, hreq, sumOver]
  have hsc : SolverCorrect panel0 [] 20 out0 := by
    refine ⟨hfeas, fun q a _ => ?_⟩
    simp [objCost, sumOver]
  have h := (C1_formulator_optimal panel0 [] 20 out0 (by simp) hsc).2 (fun _ => 0)
    (fun _ => alloc0) hfeas
  obtain ⟨qo, ao, _, _, heq⟩ := h
  refine ⟨⟨by simp, hsc⟩, ?_⟩
  rw [heq]
  simp [objCost, sumOver, solutionMap]

/-! ## Accessory Expander -/

/-- Python `str.strip()` on a character list: whitespace dropped from both
ends. -/
def trimChars (l : List Char) : List Char :=
  (l.dropWhile Char.isWhitespace).rdropWhile Char.isWhitespace

/-- Python `str.strip()` (the `.str.strip()` calls inside
`get_accessories_recursively`). -/
def stripStr (s : String) : String := ⟨trimChars s.data⟩

theorem dropWhile_of_self_of_pre {α : Type} {p : α → Bool} {x y : List α}
    (hy : y.dropWhile p = y) (hpre : x <+: y) : x.dropWhile p = x := by
  rw [List.dropWhile_eq_self_iff] at hy ⊢
  intro hl
  obtain ⟨t, rfl⟩ := hpre
  have hl2 : 0 < (x ++ t).length := by
    rw [List.length_append]
    omega
  have h0 := hy hl2
  rw [List.get_eq_getElem, List.getElem_append_left hl] at h0
  rw [List.get_eq_getElem]
  exact h0

theorem trimChars_idem (l : List Char) : trimChars (trimChars l) = trimChars l := by
  have h1 : (trimChars l).dropWhile Char.isWhitespace = trimChars l := by
    apply dropWhile_of_self_of_pre (y := l.dropWhile Char.isWhitespace)
    · exact List.dropWhile_idempotent _ _
    · exact List.rdropWhile_prefix _ _
  show ((trimChars l).dropWhile Char.isWhitespace).rdropWhile Char.isWhitespace = trimChars l
  rw [h1]
  exact List.rdropWhile_idempotent _ _

theorem stripStr_idem (s : String) : stripStr (stripStr s) = stripStr s := by
  show (⟨trimChars (trimChars s.data)⟩ : String) = ⟨trimChars s.data⟩
  rw [trimChars_idem]

/-- One row of `accessories.csv` (spec §3 `AccessoryRule`: the rule set has
columns `ParentPartNumber, AccessoryName, AccessoryPartNumber,
AccessoryCost`; the accessory's quantity is not a rule column — it is
taken from the parent row). -/
structure AccessoryRule where
  ParentPartNumber : String
  AccessoryName : String
  AccessoryPartNumber : String
  AccessoryCost : ℚ
deriving DecidableEq, Inhabited

/-- A row of a parts-list / BOQ frame: `Name, PartNumber, Quantity, Cost`. -/
structure PartRow where
  Name : String
  PartNumber : String
  Quantity : ℕ
  Cost : ℚ
deriving DecidableEq, Inhabited

/-- One round of the expander: the pandas inner merge of the frontier
against the rules on stripped `PartNumber = ParentPartNumber`
(`selector.py` lines 100-107).  Each match emits an accessory row carrying
the parent row's `Quantity`.  The emitted `PartNumber` is stored stripped:
the frame appended to `full_accessory_list` is the same object whose
`PartNumber` column is `.str.strip()`-ed in place at the top of the
following loop iteration (which always runs, since the appended frame is
non-empty). -/
def matchRows (frontier : List PartRow) (rules : List AccessoryRule) : List PartRow :=
  frontier.flatMap (fun row =>
    (rules.filter (fun r => stripStr r.ParentPartNumber == stripStr row.PartNumber)).map
      (fun r => ⟨r.AccessoryName, stripStr r.AccessoryPartNumber, row.Quantity, r.AccessoryCost⟩))

/-- The `while` loop of `get_accessories_recursively` (`selector.py` lines
96-111, `app.py` lines 101-111), with explicit fuel counting loop
iterations.  `none` means the loop has not exited within `fuel`
iterations (the Python loop is unbounded); `some rows` is the returned
concatenation `pd.concat(full_accessory_list)` (empty frame when no rule
matched). -/
def expandLoop (rules : List AccessoryRule) : ℕ → List PartRow → Option (List PartRow)
  | 0, frontier => if frontier.isEmpty then some [] else none
  | fuel + 1, frontier =>
    if frontier.isEmpty then some []
    else
      if (matchRows frontier rules).isEmpty then some []
      else (expandLoop rules fuel (matchRows frontier rules)).map
        (fun rest => matchRows frontier rules ++ rest)

/-- The frontier after `k` rounds of matching. -/
def iterRounds (rules : List AccessoryRule) (f : List PartRow) : ℕ → List PartRow
  | 0 => f
  | k + 1 => matchRows (iterRounds rules f k) rules

/-- Concatenation of the rows emitted in rounds `1..m`. -/
def emitRows (rules : List AccessoryRule) (f : List PartRow) (m : ℕ) : List PartRow :=
  (List.range m).flatMap (fun k => iterRounds rules f (k + 1))

/-- Caller-visible state of `accessories_df` after a call: the first loop
iteration strips `ParentPartNumber` in place (`selector.py` line 101,
`app.py` line 104), so the rule set is mutated exactly when the parts
list is non-empty. -/
def rulesAfter (parts : List PartRow) (rules : List AccessoryRule) : List AccessoryRule :=
  if parts.isEmpty then rules
  else rules.map (fun r => { r with ParentPartNumber := stripStr r.ParentPartNumber })

/-- `get_accessories_recursively`, returning the emitted rows (under the
given fuel) together with the final state of the caller's rule set. -/
def get_accessories_recursively (parts : List PartRow) (rules : List AccessoryRule)
    (fuel : ℕ) : Option (List PartRow) × List AccessoryRule :=
  (expandLoop rules fuel parts, rulesAfter parts rules)

/-- The expander's loop exits after finitely many iterations. -/
def ExpanderTerminates (parts : List PartRow) (rules : List AccessoryRule) : Prop :=
  ∃ fuel, (expandLoop rules fuel parts).isSome

theorem matchRows_nil (rules : List AccessoryRule) : matchRows [] rules = [] := rfl

theorem matchRows_append (a b : List PartRow) (rules : List AccessoryRule) :
    matchRows (a ++ b) rules = matchRows a rules ++ matchRows b rules :=
  List.flatMap_append a b _

theorem iterRounds_nil (rules : List AccessoryRule) (k : ℕ) :
    iterRounds rules [] k = [] := by
  induction k with
  | zero => rfl
  | succ k ih =>
    show matchRows (iterRounds rules [] k) rules = []
    rw [ih, matchRows_nil]

theorem iterRounds_append (rules : List AccessoryRule) (a b : List PartRow) (k : ℕ) :
    iterRounds rules (a ++ b) k = iterRounds rules a k ++ iterRounds rules b k := by
  induction k with
  | zero => rfl
  | succ k ih =>
    show matchRows (iterRounds rules (a ++ b) k) rules = _
    rw [ih, matchRows_append]
    rfl

theorem iterRounds_flatMap {α : Type} (rules : List AccessoryRule) (l : List α)
    (g : α → List PartRow) (k : ℕ) :
    iterRounds rules (l.flatMap g) k = l.flatMap (fun x => iterRounds rules (g x) k) := by
  induction l with
  | nil => simp [iterRounds_nil]
  | cons x xs ih => simp only [List.flatMap_cons, iterRounds_append, ih]

theorem iterRounds_shift (rules : List AccessoryRule) (f : List PartRow) (k : ℕ) :
    iterRounds rules f (k + 1) = iterRounds rules (matchRows f rules) k := by
  induction k with
  | zero => rfl
  | succ k ih =>
    show matchRows (iterRounds rules f (k + 1)) rules = _
    rw [ih]
    rfl

theorem iterRounds_add (rules : List AccessoryRule) (f : List PartRow) (a b : ℕ) :
    iterRounds rules (iterRounds rules f a) b = iterRounds rules f (a + b) := by
  induction b with
  | zero => rfl
  | succ b ih =>
    show matchRows (iterRounds rules (iterRounds rules f a) b) rules = _
    rw [ih]
    rfl

theorem iterRounds_empty_stable (rules : List AccessoryRule) (f : List PartRow) (k : ℕ)
    (h : iterRounds rules f k = []) (j : ℕ) : iterRounds rules f (k + j) = [] := by
  induction j with
  | zero => exact h
  | succ j ih =>
    show matchRows (iterRounds rules f (k + j)) rules = []
    rw [ih, matchRows_nil]

theorem emitRows_nil (rules : List AccessoryRule) (m : ℕ) : emitRows rules [] m = [] := by
  rw [emitRows, List.eq_nil_iff_forall_not_mem]
  intro r hr
  rw [List.mem_flatMap] at hr
  obtain ⟨k, _, hr⟩ := hr
  rw [iterRounds_nil] at hr
  exact absurd hr (List.not_mem_nil r)

theorem emitRows_succ (rules : List AccessoryRule) (f : List PartRow) (m : ℕ) :
    emitRows rules f (m + 1) = matchRows f rules ++ emitRows rules (matchRows f rules) m := by
  unfold emitRows
  rw [List.range_succ_eq_map, List.flatMap_cons, List.flatMap_map]
  simp only [iterRounds_shift rules f]
  rfl

theorem mem_matchRows {frontier : List PartRow} {rules : List AccessoryRule}
    {row2 : PartRow} (h : row2 ∈ matchRows frontier rules) :
    ∃ row ∈ frontier, ∃ r ∈ rules,
      stripStr r.ParentPartNumber = stripStr row.PartNumber ∧
        row2 = ⟨r.AccessoryName, stripStr r.AccessoryPartNumber, row.Quantity,
          r.AccessoryCost⟩ := by
  unfold matchRows at h
  rw [List.mem_flatMap] at h
  obtain ⟨row, hrow, h⟩ := h
  rw [List.mem_map] at h
  obtain ⟨r, hr, rfl⟩ := h
  rw [List.mem_filter] at hr
  exact ⟨row, hrow, r, hr.1, by simpa using hr.2, rfl⟩

/-- A self-referential accessory rule: part `A` requires accessory `A`. -/
def cycRule : AccessoryRule := ⟨"A", "ACC", "A", 0⟩

/-- A parts list whose single row matches `cycRule` forever. -/
def cycParts : List PartRow := [⟨"ACC", "A", 1, 0⟩]

/-- C2 (counterexample): on a cyclic rule set the loop of
`get_accessories_recursively` never exits — there is no iteration bound
under which it returns. -/
theorem C2_counterexample_cyclic_diverges : ¬ ExpanderTerminates cycParts [cycRule] := by
  have hstep : matchRows cycParts [cycRule] = cycParts := by decide
  have hnone : ∀ fuel, expandLoop [cycRule] fuel cycParts = none := by
    intro fuel
    induction fuel with
    | zero => rfl
    | succ fuel ih =>
      show expandLoop [cycRule] (fuel + 1) cycParts = none
      unfold expandLoop
      rw [hstep, ih]
      rfl
  rintro ⟨fuel, hs⟩
  rw [hnone fuel] at hs
  exact absurd hs (by simp)

theorem expandLoop_isSome_of_rank {rules : List AccessoryRule} {rk : String → ℕ} {B : ℕ}
    (h1 : ∀ r ∈ rules, rk (stripStr r.ParentPartNumber) < rk (stripStr r.AccessoryPartNumber))
    (h2 : ∀ r ∈ rules, rk (stripStr r.AccessoryPartNumber) ≤ B) :
    ∀ fuel f, (∀ row ∈ f, B ≤ rk (stripStr row.PartNumber) + fuel) →
      (expandLoop rules (fuel + 1) f).isSome = true := by
  intro fuel
  induction fuel with
  | zero =>
    intro f hf
    by_cases hfe : f.isEmpty = true
    · simp [expandLoop, hfe]
    · have hfd : (matchRows f rules).isEmpty = true := by
        rw [List.isEmpty_iff]
        by_contra hne
        obtain ⟨row2, hmem⟩ := List.exists_mem_of_ne_nil _ hne
        obtain ⟨row, hrow, r, hr, hkey, rfl⟩ := mem_matchRows hmem
        have ha := h1 r hr
        have hb := h2 r hr
        have hc := hf row hrow
        rw [hkey] at ha
        omega
      simp [expandLoop, hfe, hfd]
  | succ fuel ih =>
    intro f hf
    by_cases hfe : f.isEmpty = true
    · simp [expandLoop, hfe]
    · by_cases hfd : (matchRows f rules).isEmpty = true
      · simp [expandLoop, hfe, hfd]
      · have hnext : ∀ row2 ∈ matchRows f rules,
            B ≤ rk (stripStr row2.PartNumber) + fuel := by
          intro row2 hmem
          obtain ⟨row, hrow, r, hr, hkey, rfl⟩ := mem_matchRows hmem
          have ha := h1 r hr
          have hc := hf row hrow
          show B ≤ rk (stripStr (stripStr r.AccessoryPartNumber)) + fuel
          rw [stripStr_idem, hkey] at *
          omega
        have hrec := ih (matchRows f rules) hnext
        show (expandLoop rules (fuel + 1 + 1) f).isSome = true
        unfold expandLoop
        rw [if_neg (by simp [hfe]), if_neg (by simp [hfd])]
        obtain ⟨E, hE⟩ := Option.isSome_iff_exists.mp hrec
        rw [hE]
        rfl

theorem expandLoop_eq_emit (rules : List AccessoryRule) :
    ∀ fuel f E, expandLoop rules fuel f = some E →
      ∃ m, E = emitRows rules f m ∧ iterRounds rules f (m + 1) = [] := by
  intro fuel
  induction fuel with
  | zero =>
    intro f E h
    by_cases hfe : f.isEmpty = true
    · rw [List.isEmpty_iff] at hfe
      subst hfe
      simp only [expandLoop, List.isEmpty_nil, if_true, Option.some.injEq] at h
      subst h
      exact ⟨0, rfl, by rw [iterRounds_shift, matchRows_nil, iterRounds_nil]⟩
    · simp [expandLoop, hfe] at h
  | succ fuel ih =>
    intro f E h
    by_cases hfe : f.isEmpty = true
    · rw [List.isEmpty_iff] at hfe
      subst hfe
      simp only [expandLoop, List.isEmpty_nil, if_true, Option.some.injEq] at h
      subst h
      exact ⟨0, rfl, by rw [iterRounds_shift, matchRows_nil, iterRounds_nil]⟩
    · by_cases hfd : (matchRows f rules).isEmpty = true
      · rw [List.isEmpty_iff] at hfd
        simp only [expandLoop, hfe, if_false, hfd, List.isEmpty_nil, if_true,
          Option.some.injEq, Bool.false_eq_true] at h
        subst h
        refine ⟨0, rfl, ?_⟩
        rw [iterRounds_shift, hfd, iterRounds_nil]
      · simp only [expandLoop, hfe, hfd, if_false, Bool.false_eq_true] at h
        rw [Option.map_eq_some'] at h
        obtain ⟨E2, hE2, rfl⟩ := h
        obtain ⟨m, rfl, hstop⟩ := ih (matchRows f rules) E2 hE2
        refine ⟨m + 1, ?_, ?_⟩
        · rw [emitRows_succ]
        · rw [iterRounds_shift]
          exact hstop

theorem emit_terminates (rules : List AccessoryRule) :
    ∀ m f, iterRounds rules f (m + 1) = [] →
      expandLoop rules (m + 1) f = some (emitRows rules f m) := by
  intro m
  induction m with
  | zero =>
    intro f h
    rw [iterRounds_shift] at h
    have hmr : matchRows f rules = [] := h
    by_cases hfe : f.isEmpty = true
    · simp [expandLoop, hfe, emitRows]
    · have hfd : (matchRows f rules).isEmpty = true := by
        rw [List.isEmpty_iff]
        exact hmr
      simp [expandLoop, hfe, hfd, emitRows]
  | succ m ih =>
    intro f h
    by_cases hfe : f.isEmpty = true
    · rw [List.isEmpty_iff] at hfe
      subst hfe
      simp [expandLoop, emitRows_nil]
    · by_cases hfd : (matchRows f rules).isEmpty = true
      · have hmr : matchRows f rules = [] := List.isEmpty_iff.mp hfd
        have hemit : emitRows rules f (m + 1) = [] := by
          rw [emitRows_succ, hmr, emitRows_nil]
          rfl
        simp [expandLoop, hfe, hfd, hemit]
      · have hst : iterRounds rules (matchRows f rules) (m + 1) = [] := by
          rw [← iterRounds_shift]
          exact h
        have hrec := ih (matchRows f rules) hst
        show expandLoop rules (m + 1 + 1) f = _
        unfold expandLoop
        rw [if_neg (by simp [hfe]), if_neg (by simp [hfd]), hrec]
        rw [emitRows_succ]
        rfl

/-- C2 (amended): for every parts list and every accessory rule set that
is acyclic in the sense of admitting a rank function strictly increasing
along each rule (stripped parent to stripped accessory part number) and
bounded by `B`, the expander's loop exits within `B + 1` iterations and
returns the concatenation of the rows emitted across rounds — an empty
result when no rule matches the parts list.  (On cyclic rule sets the
reference loop need not terminate, see the counterexample.) -/
theorem C2_expander_terminates_acyclic (parts : List PartRow) (rules : List AccessoryRule)
    (rk : String → ℕ) (B : ℕ)
    (h1 : ∀ r ∈ rules, rk (stripStr r.ParentPartNumber) < rk (stripStr r.AccessoryPartNumber))
    (h2 : ∀ r ∈ rules, rk (stripStr r.AccessoryPartNumber) ≤ B) :
    (∃ m, expandLoop rules (B + 1) parts = some (emitRows rules parts m)) ∧
      (matchRows parts rules = [] → expandLoop rules (B + 1) parts = some []) := by
  have hsome : (expandLoop rules (B + 1) parts).isSome = true :=
    expandLoop_isSome_of_rank h1 h2 B parts (fun row _ => by omega)
  constructor
  · rw [Option.isSome_iff_exists] at hsome
    obtain ⟨E, hE⟩ := hsome
    obtain ⟨m, rfl, _⟩ := expandLoop_eq_emit rules (B + 1) parts E hE
    exact ⟨m, hE⟩
  · intro hm
    by_cases hfe : parts.isEmpty = true
    · simp [expandLoop, hfe]
    · have hfd : (matchRows parts rules).isEmpty = true := by
        rw [hm]
        rfl
      show expandLoop rules (B + 1) parts = some []
      unfold expandLoop
      rw [if_neg (by simp [hfe]), if_pos hfd]

/-- A one-step acyclic rule: part `P` requires accessory `A`. -/
def ruleW2 : AccessoryRule := ⟨"P", "AccA", "A", 5⟩

/-- Concrete parts list matching `ruleW2`. -/
def partsW2 : List PartRow := [⟨"PartP", "P", 1, 2⟩]

/-- A rank function witnessing that `[ruleW2]` is acyclic. -/
def rkW2 (s : String) : ℕ := if s = "A" then 1 else 0

theorem C2_expander_terminates_acyclic_witness :
    (∀ r ∈ [ruleW2], rkW2 (stripStr r.ParentPartNumber) <
        rkW2 (stripStr r.AccessoryPartNumber)) ∧
      (∀ r ∈ [ruleW2], rkW2 (stripStr r.AccessoryPartNumber) ≤ 1) ∧
      ((∃ m, expandLoop [ruleW2] 2 partsW2 = some (emitRows [ruleW2] partsW2 m)) ∧
        (matchRows partsW2 [ruleW2] = [] → expandLoop [ruleW2] 2 partsW2 = some [])) :=
  ⟨by decide, by decide,
    C2_expander_terminates_acyclic partsW2 [ruleW2] rkW2 1 (by decide) (by decide)⟩

/-- C8: whenever a run of the Accessory Expander exits with result `E`,
re-running the expander on `E` itself exits and emits only rows that are
already members of `E` — the expansion result is closed under further
expansion. -/
theorem C8_expansion_idempotent (rules : List AccessoryRule) (parts : List PartRow)
    (fuel : ℕ) (E : List PartRow) (h : expandLoop rules fuel parts = some E) :
    ∃ fuel2 E2, expandLoop rules fuel2 E = some E2 ∧ ∀ r ∈ E2, r ∈ E := by
  obtain ⟨m, rfl, hstop⟩ := expandLoop_eq_emit rules fuel parts E h
  have hiter : ∀ j, iterRounds rules (emitRows rules parts m) j =
      (List.range m).flatMap (fun k => iterRounds rules parts (k + 1 + j)) := by
    intro j
    unfold emitRows
    rw [iterRounds_flatMap]
    simp only [iterRounds_add]
  have hstopE : iterRounds rules (emitRows rules parts m) (m + 1) = [] := by
    rw [hiter, List.eq_nil_iff_forall_not_mem]
    intro r hr
    rw [List.mem_flatMap] at hr
    obtain ⟨k, _, hr⟩ := hr
    have hz : k + 1 + (m + 1) = (m + 1) + (k + 1) := by omega
    rw [hz, iterRounds_empty_stable rules parts (m + 1) hstop (k + 1)] at hr
    exact absurd hr (List.not_mem_nil r)
  refine ⟨m + 1, emitRows rules (emitRows rules parts m) m,
    emit_terminates rules m (emitRows rules parts m) hstopE, ?_⟩
  intro r hr
  rw [emitRows, List.mem_flatMap] at hr
  obtain ⟨j, hj, hr⟩ := hr
  rw [hiter, List.mem_flatMap] at hr
  obtain ⟨k, hk, hr⟩ := hr
  rw [List.mem_range] at hk
  by_cases hlt : k + j + 1 < m
  · have hz : k + 1 + (j + 1) = (k + j + 1) + 1 := by omega
    rw [hz] at hr
    rw [emitRows, List.mem_flatMap]
    exact ⟨k + j + 1, List.mem_range.mpr hlt, hr⟩
  · exfalso
    have hz : k + 1 + (j + 1) = (m + 1) + (k + j + 1 - m) := by omega
    rw [hz, iterRounds_empty_stable rules parts (m + 1) hstop _] at hr
    exact absurd hr (List.not_mem_nil r)

/-- A two-link accessory chain: `P0 → A1 → B1`. -/
def rulesW8 : List AccessoryRule := [⟨"P0", "AccA", "A1", 3⟩, ⟨"A1", "AccB", "B1", 4⟩]

/-- A primary parts list triggering the `rulesW8` chain. -/
def partsW8 : List PartRow := [⟨"Prim", "P0", 1, 9⟩]

/-- The expansion of `partsW8`: the chain's two accessory rows. -/
def expW8 : List PartRow := [⟨"AccA", "A1", 1, 3⟩, ⟨"AccB", "B1", 1, 4⟩]

theorem C8_expansion_idempotent_witness :
    expandLoop rulesW8 3 partsW8 = some expW8 ∧
      ∃ fuel2 E2, expandLoop rulesW8 fuel2 expW8 = some E2 ∧ ∀ r ∈ E2, r ∈ expW8 :=
  ⟨by decide, C8_expansion_idempotent rulesW8 partsW8 3 expW8 (by decide)⟩

/-- A rule whose `ParentPartNumber` carries surrounding whitespace. -/
def ruleW9 : AccessoryRule := ⟨" A ", "Acc", "APN", 5⟩

/-- A non-empty parts list (any non-empty list makes the loop body run once). -/
def partsW9 : List PartRow := [⟨"X", "A", 2, 7⟩]

/-- C9 (counterexample): the Accessory Expander does not leave the
accessory-rule set it is given unchanged — after this call the caller's
rule set differs from the one passed in (its `ParentPartNumber` was
stripped in place). -/
theorem C9_counterexample_rules_mutated :
    (get_accessories_recursively partsW9 [ruleW9] 2).2 ≠ [ruleW9] := by decide

theorem map_stripParent_eq_self :
    ∀ rules : List AccessoryRule,
      (∀ r ∈ rules, stripStr r.ParentPartNumber = r.ParentPartNumber) →
        rules.map (fun r => { r with ParentPartNumber := stripStr r.ParentPartNumber })
          = rules := by
  intro rules h
  induction rules with
  | nil => rfl
  | cons r rest ih =>
    rw [List.map_cons, ih (fun x hx => h x (List.mem_cons_of_mem r hx))]
    have hr := h r (List.mem_cons_self r rest)
    cases r
    simp only at hr
    simp [hr]

/-- C9 (amended): the Accessory Expander's only effect on the
accessory-rule set passed to it is to strip whitespace from each
`ParentPartNumber` in place (and only when the parts list is non-empty);
in particular a rule set whose `ParentPartNumber` values are already
stripped is returned unchanged. -/
theorem C9_expander_rules_effect (parts : List PartRow) (rules : List AccessoryRule)
    (fuel : ℕ)
    (htrimmed : ∀ r ∈ rules, stripStr r.ParentPartNumber = r.ParentPartNumber) :
    (get_accessories_recursively parts rules fuel).2 =
        (if parts.isEmpty then rules
          else rules.map
            (fun r => { r with ParentPartNumber := stripStr r.ParentPartNumber })) ∧
      (get_accessories_recursively parts rules fuel).2 = rules := by
  refine ⟨rfl, ?_⟩
  show rulesAfter parts rules = rules
  unfold rulesAfter
  by_cases hp : parts.isEmpty = true
  · rw [if_pos hp]
  · rw [if_neg hp]
    exact map_stripParent_eq_self rules htrimmed

theorem C9_expander_rules_effect_witness :
    (∀ r ∈ [ruleW2], stripStr r.ParentPartNumber = r.ParentPartNumber) ∧
      ((get_accessories_recursively partsW2 [ruleW2] 2).2 =
          (if partsW2.isEmpty then [ruleW2]
            else [ruleW2].map
              (fun r => { r with ParentPartNumber := stripStr r.ParentPartNumber })) ∧
        (get_accessories_recursively partsW2 [ruleW2] 2).2 = [ruleW2]) :=
  ⟨by decide, C9_expander_rules_effect partsW2 [ruleW2] 2 (by decide)⟩

/-! ## Server Alternative Evaluator -/

/-- Char-list prefix test (needle, haystack). -/
def charsHasPre : List Char → List Char → Bool
  | [], _ => true
  | _ :: _, [] => false
  | a :: as, b :: bs => a == b && charsHasPre as bs

/-- Char-list substring test (needle, haystack). -/
def charsHasSub (needle : List Char) : List Char → Bool
  | [] => needle.isEmpty
  | c :: rest => charsHasPre needle (c :: rest) || charsHasSub needle rest

/-- Lower-casing character by character (Python `case=False` matching). -/
def lowerChars (l : List Char) : List Char := l.map Char.toLower

/-- Case-insensitive substring match, modelling
`Series.str.contains(pat, case=False)` (the patterns used, `"AS-P"` and
`"AS-B"`, contain no regex metacharacters). -/
def containsCI (s pat : String) : Bool :=
  charsHasSub (lowerChars pat.data) (lowerChars s.data)

deriving instance DecidableEq for Except

/-- One evaluator option `{type, name, cost, valid, components}` (spec §6).
`cost = none` models the CLI variant's `float('inf')` on invalid options;
in the web route every retained option has a finite cost. -/
structure ORow where
  otype : String
  oname : String
  cost : Option ℚ
  valid : Bool
  components : List (String × ℕ)
deriving DecidableEq, Inhabited

/-- Sort key of `sorted(options, key=lambda x: x['cost'])`. -/
def costVal (o : ORow) : ℚ := o.cost.getD 0

/-- Ordering of options by the `cost` key. -/
def costLE (a b : ORow) : Prop := costVal a ≤ costVal b

instance : DecidableRel costLE := fun a b => inferInstanceAs (Decidable (costVal a ≤ costVal b))

instance : IsTotal ORow costLE := ⟨fun a b => le_total (costVal a) (costVal b)⟩

instance : IsTrans ORow costLE := ⟨fun _ _ _ hab hbc => le_trans hab hbc⟩

/-- `sorted(options, key=lambda x: x['cost'])` (`app.py` line 178). -/
def sortOptions (l : List ORow) : List ORow := List.insertionSort costLE l

/-- Spare-adjusted input demand
`math.ceil((req['DI'] + req['AI']) * spare_multiplier)`
(`selector.py` line 165, `app.py` line 172). -/
def reqInputs (req : PanelReq) (s : ℕ) : ℕ := reqPts (req.DI + req.AI) s

/-- Spare-adjusted output demand. -/
def reqOutputs (req : PanelReq) (s : ℕ) : ℕ := reqPts (req.DO + req.AO) s

/-- The closed-form AS-B feasibility check (`selector.py` lines 165-170,
`app.py` lines 172-175). -/
def asbValid (asb : ComponentSpec) (req : PanelReq) (s : ℕ) : Bool :=
  decide (asb.DI + asb.AI + asb.UI + asb.DO + asb.AO + asb.UO + asb.UIO ≥
      reqInputs req s + reqOutputs req s) &&
    decide (asb.DI + asb.AI + asb.UI + asb.UIO ≥ reqInputs req s) &&
    decide (asb.DO + asb.AO + asb.UO + asb.UIO ≥ reqOutputs req s)

/-- Modelled from the spec: `accessories.csv` is not under `src/`; per the
data model (spec §3) an `AccessoryRule` carries no `Quantity` column — the
accessory's quantity always equals the parent row's.  Hence in the
standalone-server path the one-row frame `pd.DataFrame([asb])` (a server
row) has no `Quantity` column either: when the first merge round finds a
match, the column selection `found_accessories[[…, 'Quantity', …]]`
raises `KeyError`; when it finds none, the loop breaks and the empty
frame's `Cost` sum is `0` (`selector.py` line 172, `app.py` line 176). -/
def asbAccCost (asb : ComponentSpec) (rules : List AccessoryRule) : Except String ℚ :=
  if (rules.filter (fun r =>
      stripStr r.ParentPartNumber == stripStr asb.PartNumber)).isEmpty
  then .ok 0
  else .error "KeyError: Quantity"

/-- `['Cost'].sum()` over an accessory expansion: each emitted row
contributes its unit cost once (`selector.py` line 158). -/
def accCostSum (acc : List PartRow) : ℚ := (acc.map PartRow.Cost).sum

/-- Catalog lookup `df[df['Name'] == name].iloc[0]` (first match; catalog
names are unique per the data model). -/
def lookupComp (catalog : List ComponentSpec) (name : String) : ComponentSpec :=
  (catalog.filter (fun c => c.Name == name)).headD default

/-- The combined AS-P parts list (`selector.py` lines 154-157, `app.py`
lines 163-166): the primary server at quantity 1 followed by the chosen
modules at their solved quantities. -/
def aspPrimaryRows (asp : ComponentSpec) (modCatalog : List ComponentSpec)
    (modules : List (String × ℕ)) : List PartRow :=
  ⟨asp.Name, asp.PartNumber, 1, asp.Cost⟩ ::
    modules.map (fun nq =>
      ⟨nq.1, (lookupComp modCatalog nq.1).PartNumber, nq.2,
        (lookupComp modCatalog nq.1).Cost⟩)

/-- The AS-P (modular) option of the interactive evaluator (`selector.py`
lines 152-162): on a feasible module solve, a valid option costing
server + module solve + `['Cost'].sum()` of the accessory expansion of
the combined parts list; on an infeasible solve, an invalid option with
cost `float('inf')` (modelled `none`).  `fuel` bounds the expander loop. -/
def aspOption (asp : ComponentSpec) (modCatalog : List ComponentSpec) (req : PanelReq)
    (s : ℕ) (rules : List AccessoryRule) (out : SolverOutcome) (fuel : ℕ) :
    Option ORow :=
  match find_optimal_combination req modCatalog s out with
  | (some mcost, some modules) =>
    (expandLoop rules fuel (aspPrimaryRows asp modCatalog modules)).map (fun acc =>
      ⟨"AS-P", "AS-P System", some (asp.Cost + mcost + accCostSum acc), true, modules⟩)
  | _ => some ⟨"AS-P", "AS-P System", none, false, []⟩

/-- One AS-B (standalone) option of the interactive evaluator
(`selector.py` lines 163-176): the closed-form check, then unit cost plus
the single-unit accessory cost; invalid units keep cost `float('inf')`. -/
def asbOption (asb : ComponentSpec) (req : PanelReq) (s : ℕ)
    (rules : List AccessoryRule) : Except String ORow :=
  if asbValid asb req s then
    (asbAccCost asb rules).map (fun c =>
      ⟨"AS-B", asb.Name, some (asb.Cost + c), true, [(asb.Name, 1)]⟩)
  else .ok ⟨"AS-B", asb.Name, none, false, []⟩

/-- A standalone server that passes the feasibility check for `reqW5`. -/
def asbW5 : ComponentSpec := ⟨"AS-B 24", "B1", 500, 8, 8, 8, 8, 0, 0, 0⟩

/-- A small demand easily covered by `asbW5`. -/
def reqW5 : PanelReq := ⟨"B", 4, 4, 0, 0⟩

/-- An accessory rule matching `asbW5`'s part number. -/
def rulesW5 : List AccessoryRule := [⟨"B1", "PSU", "PSU1", 30⟩]

/-- C5 (code evaluation at the failing input): `asbW5` satisfies all three
closed-form validity conditions, yet because an accessory rule matches
its part number the standalone path raises `KeyError` (the single-unit
frame has no `Quantity` column) instead of producing the option with
cost = unit cost + accessory cost promised by the spec. -/
theorem C5_asb_keyerror_eval :
    asbValid asbW5 reqW5 0 = true ∧
      asbOption asbW5 reqW5 0 rulesW5 = .error "KeyError: Quantity" := by
  with_unfolding_all decide

/-- C10: `calculate_options` (`app.py` lines 149-178).  The first
AS-P-named server is selected with `.iloc[0]` (an `IndexError` when there
is none — modelled as the `Except.error`); the AS-P option is built only
when the module solve is feasible (nothing is appended otherwise); the
valid AS-B options are appended; the result is sorted ascending by cost.
The outer `Option` is expander fuel (`none` = the accessory loop did not
exit). -/
def asbOptionsApp (asbs : List ComponentSpec) (req : PanelReq) (s : ℕ)
    (rules : List AccessoryRule) : Except String (List ORow) :=
  match asbs with
  | [] => .ok []
  | asb :: rest =>
    if asbValid asb req s then
      match asbAccCost asb rules with
      | .error e => .error e
      | .ok c =>
        match asbOptionsApp rest req s rules with
        | .error e => .error e
        | .ok l => .ok (⟨"AS-B", asb.Name, some (asb.Cost + c), true,
            [(asb.Name, 1)]⟩ :: l)
    else asbOptionsApp rest req s rules

def calculate_options (servers modCatalog : List ComponentSpec) (req : PanelReq)
    (s : ℕ) (rules : List AccessoryRule) (out : SolverOutcome) (fuel : ℕ) :
    Option (Except String (List ORow)) :=
  match (servers.filter (fun c => containsCI c.Name "AS-P")).head? with
  | none => some (.error "IndexError: single positional indexer is out-of-bounds")
  | some asp =>
    match find_optimal_combination req modCatalog s out with
    | (some mcost, some modules) =>
      (expandLoop rules fuel (aspPrimaryRows asp modCatalog modules)).map (fun acc =>
        match asbOptionsApp (servers.filter (fun c => containsCI c.Name "AS-B"))
            req s rules with
        | .error e => .error e
        | .ok l => .ok (sortOptions
            (⟨"AS-P", "AS-P System", some (asp.Cost + mcost + accCostSum acc), true,
              modules⟩ :: l)))
    | _ =>
      some (match asbOptionsApp (servers.filter (fun c => containsCI c.Name "AS-B"))
          req s rules with
        | .error e => .error e
        | .ok l => .ok (sortOptions l))

/-- C10: the Server Alternative Evaluator presupposes a catalog entry
whose name contains `AS-P`: over a server catalog with no such entry,
`calculate_options` fails with the out-of-bounds element access before
producing any options list. -/
theorem C10_requires_asp_server (servers modCatalog : List ComponentSpec)
    (req : PanelReq) (s : ℕ) (rules : List AccessoryRule) (out : SolverOutcome)
    (fuel : ℕ) (h : ∀ c ∈ servers, containsCI c.Name "AS-P" = false) :
    calculate_options servers modCatalog req s rules out fuel =
      some (.error "IndexError: single positional indexer is out-of-bounds") := by
  have hf : servers.filter (fun c => containsCI c.Name "AS-P") = [] := by
    rw [List.filter_eq_nil_iff]
    intro c hc
    simp [h c hc]
  unfold calculate_options
  rw [hf]
  rfl

/-- A server whose name does not mention `AS-P`. -/
def serverX : ComponentSpec := ⟨"AS-X", "X1", 1, 0, 0, 0, 0, 0, 0, 0⟩

theorem C10_requires_asp_server_witness :
    (∀ c ∈ [serverX], containsCI c.Name "AS-P" = false) ∧
      calculate_options [serverX] [] panel0 20 [] .noSolution 1 =
        some (.error "IndexError: single positional indexer is out-of-bounds") :=
  ⟨by decide, C10_requires_asp_server [serverX] [] panel0 20 [] .noSolution 1 (by decide)⟩

theorem sumOver_one (f : ℕ → ℚ) : sumOver 1 f = f 0 := by
  simp [sumOver, List.range_succ]

/-- The designated primary server for the concrete evaluations. -/
def aspW : ComponentSpec := ⟨"AS-P srv", "ASP1", 100, 0, 0, 0, 0, 0, 0, 0⟩

/-- A module offering 8 digital inputs at cost 10. -/
def modW : ComponentSpec := ⟨"M", "M1", 10, 8, 0, 0, 0, 0, 0, 0⟩

/-- A panel demanding 16 digital inputs. -/
def reqW : PanelReq := ⟨"SP", 16, 0, 0, 0⟩

/-- The optimal solve of `reqW` over `[modW]` with 0% spare: two modules. -/
def outW : SolverOutcome := .optimal (fun _ => 2) (fun _ => alloc0)

/-- An accessory rule on the module `modW`. -/
def rulesW3 : List AccessoryRule := [⟨"M1", "CBL", "C1", 7⟩]

/-- The accessory expansion of the combined AS-P parts list: one cable row
carrying the module's quantity 2. -/
def accW3 : List PartRow := [⟨"CBL", "C1", 2, 7⟩]

theorem outW_solver_correct : SolverCorrect reqW [modW] 0 outW := by
  have hre16 : reqPts 16 0 = 16 := by with_unfolding_all rfl
  have hlen : ([modW] : List ComponentSpec).length = 1 := rfl
  refine ⟨⟨?_, ?_, ?_, ?_, ?_⟩, ?_⟩
  · intro i hi
    have hi0 : i = 0 := by
      rw [hlen] at hi
      omega
    subst hi0
    refine ⟨?_, ?_, ?_, ?_⟩ <;> norm_num [AllocNN, alloc0, uioQ, uiQ, uoQ, cAt, modW]
  · show (reqPts 16 0 : ℚ) ≤ _
    rw [hre16, hlen, sumOver_one, sumOver_one, sumOver_one]
    norm_num [diQ, cAt, modW, alloc0]
  · show (reqPts 0 0 : ℚ) ≤ _
    rw [show reqPts 0 0 = 0 from by with_unfolding_all rfl,
      hlen, sumOver_one, sumOver_one, sumOver_one]
    norm_num [doQ, cAt, modW, alloc0]
  · show (reqPts 0 0 : ℚ) ≤ _
    rw [show reqPts 0 0 = 0 from by with_unfolding_all rfl,
      hlen, sumOver_one, sumOver_one, sumOver_one]
    norm_num [aiQ, cAt, modW, alloc0]
  · show (reqPts 0 0 : ℚ) ≤ _
    rw [show reqPts 0 0 = 0 from by with_unfolding_all rfl,
      hlen, sumOver_one, sumOver_one, sumOver_one]
    norm_num [aoQ, cAt, modW, alloc0]
  · intro q a hq
    have hobj : ∀ p : ℕ → ℕ, objCost [modW] p = 10 * (p 0 : ℚ) := by
      intro p
      rw [objCost, hlen, sumOver_one]
      norm_num [cAt, modW]
    obtain ⟨hcap, hDI, _, _, _⟩ := hq
    obtain ⟨hnn, _, hui, _⟩ := hcap 0 (by rw [hlen]; omega)
    obtain ⟨_, _, _, _, hn5, hn6, _, _⟩ := hnn
    obtain ⟨h1, h2, h3, h4, _, _, _, _⟩ := (hcap 0 (by rw [hlen]; omega)).1
    have huio := (hcap 0 (by rw [hlen]; omega)).2.1
    have hre16b : reqPts reqW.DI 0 = 16 := by with_unfolding_all rfl
    rw [hre16b, hlen, sumOver_one, sumOver_one, sumOver_one] at hDI
    rw [show diQ (cAt [modW] 0) = 8 from by norm_num [diQ, cAt, modW]] at hDI
    rw [show uiQ (cAt [modW] 0) = 0 from by norm_num [uiQ, cAt, modW]] at hui
    rw [show uioQ (cAt [modW] 0) = 0 from by norm_num [uioQ, cAt, modW]] at huio
    rw [hobj q, hobj (fun _ => 2)]
    have hq0 : (2 : ℚ) ≤ (q 0 : ℚ) := by
      have hzero : (0 : ℚ) * (q 0 : ℚ) = 0 := by ring
      rw [hzero] at hui huio
      have hDI16 : (16 : ℚ) ≤ 8 * (q 0 : ℚ) + (a 0).ui_as_digital + (a 0).uio_as_di := by
        exact_mod_cast hDI
      linarith
    norm_num
    linarith

/-- C3 (counterexample): at this concrete server panel the module solve is
feasible and optimal (two `modW` at cost 20), the accessory expansion of
the combined parts list is one cable row with `Quantity = 2` and unit cost
7, and the code prices the modular option at `100 + 20 + 7 = 127` — the
`['Cost'].sum()` counts each expanded accessory row's unit cost once —
whereas the claim's formula (each accessory contributes `Quantity ×` unit
cost) gives `100 + 20 + 14 = 134 ≠ 127`. -/
theorem C3_counterexample_acc_cost_unit_not_qty :
    SolverCorrect reqW [modW] 0 outW ∧
      expandLoop rulesW3 2 (aspPrimaryRows aspW [modW] (solutionMap [modW] (fun _ => 2)))
          = some accW3 ∧
      (aspOption aspW [modW] reqW 0 rulesW3 outW 2).map ORow.cost = some (some 127) ∧
      aspW.Cost + objCost [modW] (fun _ => 2) +
          ((accW3.map (fun r => (r.Quantity : ℚ) * r.Cost)).sum) = 134 ∧
      (127 : ℚ) ≠ 134 := by
  refine ⟨outW_solver_correct, ?_, ?_, ?_, ?_⟩ <;> with_unfolding_all decide

/-- C3 (amended): the modular (AS-P) option's total cost equals the primary
server's unit cost plus the module solve's optimal cost plus the sum of
the unit costs of the accessory rows expanded from the combined parts
list (each emitted row contributes its unit `Cost` once, not multiplied
by its `Quantity`); if the module solve is infeasible the option is
marked invalid (cost `float('inf')`, no components). -/
theorem C3_asp_option_cost (asp : ComponentSpec) (modCatalog : List ComponentSpec)
    (req : PanelReq) (s : ℕ) (rules : List AccessoryRule) (fuel : ℕ) :
    (aspOption asp modCatalog req s rules .noSolution fuel =
        some ⟨"AS-P", "AS-P System", none, false, []⟩) ∧
      (∀ qty al acc,
        expandLoop rules fuel (aspPrimaryRows asp modCatalog (solutionMap modCatalog qty))
            = some acc →
          aspOption asp modCatalog req s rules (.optimal qty al) fuel =
            some ⟨"AS-P", "AS-P System",
              some (asp.Cost + objCost modCatalog qty + accCostSum acc), true,
              solutionMap modCatalog qty⟩) := by
  refine ⟨rfl, ?_⟩
  intro qty al acc hacc
  have hred : aspOption asp modCatalog req s rules (.optimal qty al) fuel
      = (expandLoop rules fuel
            (aspPrimaryRows asp modCatalog (solutionMap modCatalog qty))).map
          (fun acc2 => ⟨"AS-P", "AS-P System",
            some (asp.Cost + objCost modCatalog qty + accCostSum acc2), true,
            solutionMap modCatalog qty⟩) := rfl
  rw [hred, hacc]
  rfl

/-- A standalone server too small for `reqW` (all point counts 0). -/
def asbBad : ComponentSpec := ⟨"AS-B tiny", "B9", 50, 0, 0, 0, 0, 0, 0, 0⟩

/-- A server catalog with one AS-P unit and one (infeasible) AS-B unit. -/
def serversW4 : List ComponentSpec := [aspW, asbBad]

/-- The single option `calculate_options` returns for `serversW4` on
`reqW`: the valid AS-P build (`100 + 20 + 0`). -/
def aspOptW4 : ORow := ⟨"AS-P", "AS-P System", some 120, true, [("M", 2)]⟩

/-- C4 (counterexample): on this single-panel sizing request the AS-B unit
`asbBad` fails the feasibility check, yet the returned option list does
not retain it with a validity flag — the list holds only the valid AS-P
option, so invalid options are dropped rather than kept. -/
theorem C4_counterexample_invalid_dropped :
    calculate_options serversW4 [modW] reqW 0 [] outW 1 = some (.ok [aspOptW4]) ∧
      asbValid asbBad reqW 0 = false ∧
      aspOptW4.oname ≠ asbBad.Name := by
  with_unfolding_all decide

theorem asbOptionsApp_all_valid : ∀ (asbs : List ComponentSpec) (req : PanelReq)
    (s : ℕ) (rules : List AccessoryRule) (l : List ORow),
    asbOptionsApp asbs req s rules = .ok l → ∀ o ∈ l, o.valid = true := by
  intro asbs
  induction asbs with
  | nil =>
    intro req s rules l h o ho
    have hl : ([] : List ORow) = l := by
      injection h
    rw [← hl] at ho
    exact absurd ho (List.not_mem_nil o)
  | cons asb rest ih =>
    intro req s rules l h o ho
    by_cases hv : asbValid asb req s = true
    · simp only [asbOptionsApp] at h
      rw [if_pos hv] at h
      cases hac : asbAccCost asb rules with
      | error e => rw [hac] at h; simp at h
      | ok c =>
        rw [hac] at h
        cases hrest : asbOptionsApp rest req s rules with
        | error e => rw [hrest] at h; simp at h
        | ok l2 =>
          rw [hrest] at h
          injection h with h
          rw [← h] at ho
          rcases List.mem_cons.mp ho with rfl | ho2
          · rfl
          · exact ih req s rules l2 hrest o ho2
    · simp only [asbOptionsApp] at h
      rw [if_neg hv] at h
      exact ih req s rules l h o ho

/-- C4 (amended): for a single-panel sizing request (`calculate_options`,
`app.py` lines 149-178), the returned option list consists of valid
options only — an infeasible AS-P build or an AS-B unit failing the
closed-form check is omitted, not retained with a `valid: false` flag —
and the list is sorted ascending by total cost.  (The CLI variant,
`selector.py` lines 160-181, retains invalid options with a validity flag
but presents them unsorted, in catalog order.) -/
theorem C4_options_valid_sorted (servers modCatalog : List ComponentSpec)
    (req : PanelReq) (s : ℕ) (rules : List AccessoryRule) (out : SolverOutcome)
    (fuel : ℕ) (l : List ORow)
    (h : calculate_options servers modCatalog req s rules out fuel = some (.ok l)) :
    List.Sorted costLE l ∧ ∀ o ∈ l, o.valid = true := by
  unfold calculate_options at h
  cases hh : (servers.filter (fun c => containsCI c.Name "AS-P")).head? with
  | none =>
    rw [hh] at h
    simp at h
  | some asp =>
    rw [hh] at h
    cases out with
    | optimal qty al =>
      simp only [find_optimal_combination] at h
      rw [Option.map_eq_some'] at h
      obtain ⟨acc, _, hg⟩ := h
      cases hao : asbOptionsApp (servers.filter (fun c => containsCI c.Name "AS-B"))
          req s rules with
      | error e => rw [hao] at hg; simp at hg
      | ok l2 =>
        rw [hao] at hg
        injection hg with hg
        rw [← hg]
        refine ⟨List.sorted_insertionSort costLE _, ?_⟩
        intro o ho
        rw [sortOptions, List.mem_insertionSort] at ho
        rcases List.mem_cons.mp ho with rfl | ho2
        · rfl
        · exact asbOptionsApp_all_valid _ req s rules l2 hao o ho2
    | noSolution =>
      simp only [find_optimal_combination] at h
      injection h with h
      cases hao : asbOptionsApp (servers.filter (fun c => containsCI c.Name "AS-B"))
          req s rules with
      | error e => rw [hao] at h; simp at h
      | ok l2 =>
        rw [hao] at h
        injection h with h
        rw [← h]
        refine ⟨List.sorted_insertionSort costLE _, ?_⟩
        intro o ho
        rw [sortOptions, List.mem_insertionSort] at ho
        exact asbOptionsApp_all_valid _ req s rules l2 hao o ho

theorem C4_options_valid_sorted_witness :
    calculate_options serversW4 [modW] reqW 0 [] outW 1 = some (.ok [aspOptW4]) ∧
      (List.Sorted costLE [aspOptW4] ∧ ∀ o ∈ [aspOptW4], o.valid = true) :=
  ⟨by with_unfolding_all decide,
    C4_options_valid_sorted serversW4 [modW] reqW 0 [] outW 1 [aspOptW4]
      (by with_unfolding_all decide)⟩

/-! ## Aggregator -/

/-- One row of the per-panel solution table
(`{'PanelName', 'ControllerName', 'Quantity'}`). -/
structure SolRow where
  PanelName : String
  ControllerName : String
  Quantity : ℕ
deriving DecidableEq, Inhabited

/-- Add a quantity into an association list, keeping first-seen key order. -/
def addAssoc {α : Type} [DecidableEq α] : List (α × ℕ) → α → ℕ → List (α × ℕ)
  | [], key, q => [(key, q)]
  | (k, q0) :: rest, key, q =>
    if k = key then (k, q0 + q) :: rest else (k, q0) :: addAssoc rest key q

/-- `groupby(key)['Quantity'].sum()`: one entry per distinct key with the
summed quantities.  (pandas orders the groups by sorted key; the key
order is immaterial to the claims proved here.) -/
def groupSum {α : Type} [DecidableEq α] (pairs : List (α × ℕ)) : List (α × ℕ) :=
  pairs.foldl (fun acc kq => addAssoc acc kq.1 kq.2) []

/-- One BOQ line (`ControllerName, PartNumber, Cost, Quantity, TotalCost`).
The trailing Grand Total row's `PartNumber`, `Cost` and `Quantity` are
empty strings in the pandas frame; the typed model uses `""`/`0`. -/
structure BOQLine where
  ControllerName : String
  PartNumber : String
  Cost : ℚ
  Quantity : ℕ
  TotalCost : ℚ
deriving DecidableEq, Inhabited

/-- The aggregated primary parts list of the BOQ (`app.py` lines 204-207):
group the solution rows by component name (excluding the
`'No Solution Found'` sentinel), sum quantities, and left-join the
catalog for `PartNumber`/`Cost`. -/
def primaryRows (solutions : List SolRow) (catalog : List ComponentSpec) :
    List PartRow :=
  (groupSum ((solutions.filter
      (fun r => r.ControllerName != "No Solution Found")).map
      (fun r => (r.ControllerName, r.Quantity)))).map
    (fun nq => ⟨nq.1, (lookupComp catalog nq.1).PartNumber, nq.2,
      (lookupComp catalog nq.1).Cost⟩)

/-- The grouped, costed BOQ lines (`app.py` line 208): group the primary
list united with its accessory expansion by `(Name, PartNumber, Cost)`,
sum quantities, and set `TotalCost = Quantity × Cost`. -/
def boqBody (primRows acc : List PartRow) : List BOQLine :=
  (groupSum ((primRows ++ acc).map
      (fun r => ((r.Name, r.PartNumber, r.Cost), r.Quantity)))).map
    (fun kq => ⟨kq.1.1, kq.1.2.1, kq.1.2.2, kq.2, (kq.2 : ℚ) * kq.1.2.2⟩)

/-- The BOQ of `generate_reports` (`app.py` lines 204-210): empty when no
primary component remains; otherwise the grouped lines followed by one
`Grand Total` row holding the sum of the other rows' `TotalCost`.  `fuel`
bounds the accessory-expansion loop. -/
def generate_boq (solutions : List SolRow) (catalog : List ComponentSpec)
    (rules : List AccessoryRule) (fuel : ℕ) : Option (List BOQLine) :=
  if (primaryRows solutions catalog).isEmpty then some []
  else
    (expandLoop rules fuel (primaryRows solutions catalog)).map (fun acc =>
      boqBody (primaryRows solutions catalog) acc ++
        [⟨"Grand Total", "", 0, 0,
          ((boqBody (primaryRows solutions catalog) acc).map BOQLine.TotalCost).sum⟩])

/-- C6: in every BOQ produced by the Aggregator, each non-summary line
satisfies `TotalCost = Quantity × UnitCost`, and the trailing Grand Total
row's `TotalCost` equals the sum of `TotalCost` over all other rows.
(When no primary component remains, the route returns an empty BOQ.) -/
theorem C6_boq_totals (solutions : List SolRow) (catalog : List ComponentSpec)
    (rules : List AccessoryRule) (fuel : ℕ) (boq : List BOQLine)
    (h : generate_boq solutions catalog rules fuel = some boq) :
    boq = [] ∨
      ∃ body, boq = body ++
          [⟨"Grand Total", "", 0, 0, (body.map BOQLine.TotalCost).sum⟩] ∧
        ∀ line ∈ body, line.TotalCost = (line.Quantity : ℚ) * line.Cost := by
  unfold generate_boq at h
  by_cases hp : (primaryRows solutions catalog).isEmpty = true
  · rw [if_pos hp] at h
    injection h with h
    exact Or.inl h.symm
  · rw [if_neg hp, Option.map_eq_some'] at h
    obtain ⟨acc, _, hb⟩ := h
    refine Or.inr ⟨boqBody (primaryRows solutions catalog) acc, hb.symm, ?_⟩
    intro line hline
    rw [boqBody, List.mem_map] at hline
    obtain ⟨kq, _, rfl⟩ := hline
    rfl

/-- A one-row solution table. -/
def solW6 : List SolRow := [⟨"P1", "C", 2⟩]

/-- A one-component catalog for the BOQ evaluations. -/
def catW6 : List ComponentSpec := [⟨"C", "CPN", 5, 0, 0, 0, 0, 0, 0, 0⟩]

/-- The BOQ of `solW6` over `catW6`: one line `2 × 5 = 10` and its total. -/
def boqW6 : List BOQLine := [⟨"C", "CPN", 5, 2, 10⟩, ⟨"Grand Total", "", 0, 0, 10⟩]

theorem C6_boq_totals_witness :
    generate_boq solW6 catW6 [] 1 = some boqW6 ∧
      (boqW6 = [] ∨
        ∃ body, boqW6 = body ++
            [⟨"Grand Total", "", 0, 0, (body.map BOQLine.TotalCost).sum⟩] ∧
          ∀ line ∈ body, line.TotalCost = (line.Quantity : ℚ) * line.Cost) :=
  ⟨by with_unfolding_all decide,
    C6_boq_totals solW6 catW6 [] 1 boqW6 (by with_unfolding_all decide)⟩

/-- The rows one panel contributes to the solution table
(`app.py` lines 192-197): the solved component quantities, or the
`('No Solution Found', 0)` sentinel when the solve is infeasible — or
when it returns an empty dictionary, since `if result:` is falsy then. -/
def panelRows (solveRes : String → Option (List (String × ℕ))) (p : String) :
    List SolRow :=
  match solveRes p with
  | some result =>
    if result.isEmpty then [⟨p, "No Solution Found", 0⟩]
    else result.map (fun cq => ⟨p, cq.1, cq.2⟩)
  | none => [⟨p, "No Solution Found", 0⟩]

/-- The standard-panels loop of `generate_reports`, with the per-panel
`find_optimal_combination` result abstracted as `solveRes`
(`none` = infeasible). -/
def buildSolutions (solveRes : String → Option (List (String × ℕ)))
    (panels : List String) : List SolRow :=
  panels.flatMap (panelRows solveRes)

theorem panelRows_has_row (solveRes : String → Option (List (String × ℕ)))
    (q : String) : ∃ row ∈ panelRows solveRes q, row.PanelName = q := by
  unfold panelRows
  cases h : solveRes q with
  | none => exact ⟨⟨q, "No Solution Found", 0⟩, List.mem_singleton.mpr rfl, rfl⟩
  | some res =>
    cases res with
    | nil => exact ⟨⟨q, "No Solution Found", 0⟩, List.mem_singleton.mpr rfl, rfl⟩
    | cons c rest =>
      exact ⟨⟨q, c.1, c.2⟩, List.mem_map.mpr ⟨c, List.mem_cons_self c rest, rfl⟩, rfl⟩

theorem generate_boq_congr (s1 s2 : List SolRow) (catalog : List ComponentSpec)
    (rules : List AccessoryRule) (fuel : ℕ)
    (h : s1.filter (fun r => r.ControllerName != "No Solution Found") =
        s2.filter (fun r => r.ControllerName != "No Solution Found")) :
    generate_boq s1 catalog rules fuel = generate_boq s2 catalog rules fuel := by
  unfold generate_boq primaryRows
  rw [h]

/-- C7: in a batch containing an infeasible panel, the report still
completes with at least one solution row per panel; the infeasible panel
contributes exactly the `('No Solution Found', 0)` sentinel row; the
other panels' rows are what they would be in any batch (the table is the
per-panel concatenation); and the sentinel is excluded from the BOQ cost
totals — the BOQ is unchanged by the infeasible panel's presence. -/
theorem C7_infeasible_sentinel (solveRes : String → Option (List (String × ℕ)))
    (b1 b2 : List String) (p : String) (catalog : List ComponentSpec)
    (rules : List AccessoryRule) (fuel : ℕ) (hin : solveRes p = none) :
    (∀ q ∈ b1 ++ p :: b2, ∃ row ∈ buildSolutions solveRes (b1 ++ p :: b2),
        row.PanelName = q) ∧
      buildSolutions solveRes (b1 ++ p :: b2) =
        buildSolutions solveRes b1 ++ ⟨p, "No Solution Found", 0⟩ ::
          buildSolutions solveRes b2 ∧
      generate_boq (buildSolutions solveRes (b1 ++ p :: b2)) catalog rules fuel =
        generate_boq (buildSolutions solveRes (b1 ++ b2)) catalog rules fuel := by
  have hps : panelRows solveRes p = [⟨p, "No Solution Found", 0⟩] := by
    unfold panelRows
    rw [hin]
  have hdec : buildSolutions solveRes (b1 ++ p :: b2) =
      buildSolutions solveRes b1 ++ ⟨p, "No Solution Found", 0⟩ ::
        buildSolutions solveRes b2 := by
    unfold buildSolutions
    rw [List.flatMap_append, List.flatMap_cons, hps]
    rfl
  refine ⟨?_, hdec, ?_⟩
  · intro q hq
    obtain ⟨row, hrow, hname⟩ := panelRows_has_row solveRes q
    exact ⟨row, List.mem_flatMap.mpr ⟨q, hq, hrow⟩, hname⟩
  · apply generate_boq_congr
    have hdec2 : buildSolutions solveRes (b1 ++ b2) =
        buildSolutions solveRes b1 ++ buildSolutions solveRes b2 := by
      unfold buildSolutions
      rw [List.flatMap_append]
    have hsent : ¬((⟨p, "No Solution Found", 0⟩ : SolRow).ControllerName
        != "No Solution Found") = true :=
      (by decide : ¬(("No Solution Found" : String) != "No Solution Found") = true)
    rw [hdec, hdec2, List.filter_append, List.filter_append, List.filter_cons,
      if_neg hsent]

/-- A batch result: panel `P2` infeasible, every other panel solved as one
controller `C`. -/
def solveResW (q : String) : Option (List (String × ℕ)) :=
  if q = "P2" then none else some [("C", 1)]

theorem C7_infeasible_sentinel_witness :
    solveResW "P2" = none ∧
      ((∀ q ∈ ["P1"] ++ "P2" :: [],
          ∃ row ∈ buildSolutions solveResW (["P1"] ++ "P2" :: []),
            row.PanelName = q) ∧
        buildSolutions solveResW (["P1"] ++ "P2" :: []) =
          buildSolutions solveResW ["P1"] ++ ⟨"P2", "No Solution Found", 0⟩ ::
            buildSolutions solveResW [] ∧
        generate_boq (buildSolutions solveResW (["P1"] ++ "P2" :: [])) catW6 [] 1 =
          generate_boq (buildSolutions solveResW (["P1"] ++ [])) catW6 [] 1) :=
  ⟨by decide, C7_infeasible_sentinel solveResW ["P1"] [] "P2" catW6 [] 1 (by decide)⟩
